import Mathlib

/-!
# Rule provider of tflint (`rules/provider.go`)

A shallow embedding of `CheckRuleNames` and `NewRules` together with the data
they read: the `Rule` interface, the built-in catalogs, the configuration and
the result of the plugin loader.

* Go slices are Lean lists, `append` is `++`, a `for ... range` loop over a
  slice is a `List.foldl` (or a structural recursion when the loop body can
  return early).
* A Go `map[string]V` is an association list with unique keys (`GoMap V`).
* The `log.Print*` calls write to the logger only and are left out; they have
  no influence on the returned values.
* The catalogs `manualDefaultRules`, `modelRules`, `manualDeepCheckRules`,
  `apiRules` (their elements are constructed in other packages) and the plugin
  loader `plugin.NewRules` are parameters, collected in `Env`.
-/

namespace Rules

/-! ## Data model -/

/-- Rule is the interface of `provider.go`: `Name()`, `Enabled()` and `Check`.
`Check` is never called by the provider; `ident` stands for the identity of
the object behind the interface value, so that two rules with equal names are
still two rules. -/
structure Rule where
  Name : String
  Enabled : Bool
  ident : Nat
  deriving DecidableEq, Repr

/-- RuleConfig of package `tflint`: the target of the pointers stored in
`Config.Rules`. -/
structure RuleConfig where
  Name : String
  Enabled : Bool
  deriving DecidableEq, Repr

/-- A Go map with string keys: an association list. `GoMap.set` keeps the keys
unique, `GoMap.get?` reads the entry of a key. -/
abbrev GoMap (α : Type) := List (String × α)

/-- Lookup `m[k]` with the comma-ok result folded into the option. -/
def GoMap.get? {α : Type} : GoMap α → String → Option α
  | [], _ => none
  | (k', v) :: rest, k => if k' = k then some v else GoMap.get? rest k

/-- Assignment `m[k] = v`: a present key is overwritten, a new key is added. -/
def GoMap.set {α : Type} (m : GoMap α) (k : String) (v : α) : GoMap α :=
  (k, v) :: m.filter (fun e => decide (e.1 ≠ k))

/-- Config of package `tflint`, restricted to the fields the provider reads.
`Rules` is a `map[string]*RuleConfig`: a stored `none` is a nil pointer.
`PluginDir` stands for the plugin discovery parameters, which only the plugin
loader reads. -/
structure Config where
  DeepCheck : Bool
  Rules : GoMap (Option RuleConfig)
  PluginDir : String
  deriving DecidableEq, Repr

/-- An error value created inside package `plugin`. -/
structure PluginError where
  msg : String
  deriving DecidableEq, Repr

/-- The error values `CheckRuleNames` and `NewRules` can return: the error of
the plugin loader handed through unchanged, and the two `fmt.Errorf` values of
`CheckRuleNames`, each with the argument formatted into it. -/
inductive GoError where
  | fromPlugin (e : PluginError)
  | duplicated (name : String)
  | notFound (name : String)
  deriving DecidableEq, Repr

/-- Method `Error()`: the message of an error value. -/
def GoError.Error : GoError → String
  | .fromPlugin e => e.msg
  | .duplicated name => "Rule " ++ name ++ " is duplicated. Rule names must be unique"
  | .notFound name => "Rule not found: " ++ name

/-- What `provider.go` takes from elsewhere: the four catalog slices and the
plugin loader `plugin.NewRules`, which returns a slice of rules and an error. -/
structure Env where
  manualDefaultRules : List Rule
  modelRules : List Rule
  manualDeepCheckRules : List Rule
  apiRules : List Rule
  pluginNewRules : Config → List Rule × Option PluginError

/-! ## The provider -/

/-- `var DefaultRules = append(manualDefaultRules, modelRules...)` -/
def DefaultRules (env : Env) : List Rule :=
  env.manualDefaultRules ++ env.modelRules

/-- `var deepCheckRules = append(manualDeepCheckRules, apiRules...)` -/
def deepCheckRules (env : Env) : List Rule :=
  env.manualDeepCheckRules ++ env.apiRules

/-- First loop of `CheckRuleNames`: every built-in rule is stored under its
name, without looking whether the key is taken. -/
def builtinRulesMap (env : Env) : GoMap Rule :=
  (DefaultRules env ++ deepCheckRules env).foldl
    (fun rulesMap rule => rulesMap.set rule.Name rule) []

/-- Second loop of `CheckRuleNames`: a plugin rule whose name is a key of
`rulesMap` ends the function with the duplicated error, otherwise the rule is
stored and the loop goes on. -/
def registerPluginRules : GoMap Rule → List Rule → Except GoError (GoMap Rule)
  | rulesMap, [] => .ok rulesMap
  | rulesMap, rule :: rest =>
    if (rulesMap.get? rule.Name).isSome then
      .error (GoError.duplicated rule.Name)
    else
      registerPluginRules (rulesMap.set rule.Name rule) rest

/-- Last loop of `CheckRuleNames`: the first requested name that is no key of
`rulesMap` ends the function with the not-found error. -/
def checkNamesLoop (rulesMap : GoMap Rule) : List String → Option GoError
  | [] => none
  | rule :: rest =>
    if (rulesMap.get? rule).isSome then checkNamesLoop rulesMap rest
    else some (GoError.notFound rule)

/-- `func CheckRuleNames(ruleNames []string, c *tflint.Config) error`;
`none` is the nil error. -/
def CheckRuleNames (env : Env) (ruleNames : List String) (c : Config) : Option GoError :=
  let rulesMap := builtinRulesMap env
  match env.pluginNewRules c with
  | (_, some err) => some (GoError.fromPlugin err)
  | (pluginRules, none) =>
    match registerPluginRules rulesMap pluginRules with
    | .error e => some e
    | .ok rulesMap => checkNamesLoop rulesMap ruleNames

/-- Body of the last loop of `NewRules`: `enabled` starts as `rule.Enabled()`,
is replaced by `r.Enabled` when `c.Rules[rule.Name()]` is a non-nil pointer,
and the rule is appended to `ret` when `enabled` holds. -/
def enableStep (c : Config) (ret : List Rule) (rule : Rule) : List Rule :=
  let enabled := rule.Enabled
  let enabled :=
    match c.Rules.get? rule.Name with
    | some (some r) => r.Enabled
    | _ => enabled
  if enabled then ret ++ [rule] else ret

/-- `func NewRules(c *tflint.Config) ([]Rule, error)`; `none` is the nil
error. -/
def NewRules (env : Env) (c : Config) : List Rule × Option GoError :=
  let ret : List Rule := []
  let allRules : List Rule :=
    if c.DeepCheck then DefaultRules env ++ deepCheckRules env else DefaultRules env
  match env.pluginNewRules c with
  | (_, some err) => (ret, some (GoError.fromPlugin err))
  | (pluginRules, none) =>
    let allRules := pluginRules.foldl (fun all pluginRule => all ++ [pluginRule]) allRules
    let ret := allRules.foldl (enableStep c) ret
    (ret, none)

/-! ## Vocabulary of the specification -/

/-- The effective enabled flag of a rule: the override of `c.Rules` for its
name when there is a non-nil one, the rule's own `Enabled()` otherwise. -/
def effectiveEnabled (c : Config) (r : Rule) : Bool :=
  match c.Rules.get? r.Name with
  | some (some o) => o.Enabled
  | _ => r.Enabled

/-- The rules the plugin loader hands over for `c`. -/
def pluginRulesOf (env : Env) (c : Config) : List Rule :=
  (env.pluginNewRules c).1

/-- The plugin loader succeeds for `c`: its error is nil. -/
def loaderSucceeds (env : Env) (c : Config) : Prop :=
  (env.pluginNewRules c).2 = none

instance (env : Env) (c : Config) : Decidable (loaderSucceeds env c) := by
  unfold loaderSucceeds; infer_instance

/-- The candidates of `NewRules`: `DefaultRules`, then `deepCheckRules` when
deep check is on, then the plugin rules in load order. -/
def candidates (env : Env) (c : Config) : List Rule :=
  DefaultRules env ++ (if c.DeepCheck then deepCheckRules env else []) ++ pluginRulesOf env c

/-- The names of the built-in rules of both catalogs. -/
def builtinNames (env : Env) : List String :=
  (DefaultRules env ++ deepCheckRules env).map (fun r => r.Name)

/-- The names of every rule of `DefaultRules`, `deepCheckRules` and the plugin
rules of `c`. -/
def knownNames (env : Env) (c : Config) : List String :=
  builtinNames env ++ (pluginRulesOf env c).map (fun r => r.Name)

/-- No plugin rule of `c` has a name that is already registered when the rule
is reached: none has the name of a built-in rule and no two share a name. -/
def noPluginCollision (env : Env) (c : Config) : Prop :=
  ((pluginRulesOf env c).map (fun r => r.Name)).Nodup ∧
    ∀ p ∈ pluginRulesOf env c, p.Name ∉ builtinNames env

instance (env : Env) (c : Config) : Decidable (noPluginCollision env c) := by
  unfold noPluginCollision; infer_instance

/-- Statement `delete(m, k)`: the entry of `k` is removed when there is one. -/
def GoMap.erase {α : Type} (m : GoMap α) (k : String) : GoMap α :=
  m.filter (fun e => decide (e.1 ≠ k))

/-! ## Sample data -/

/-- A default rule that is enabled by itself. -/
def ruleInstanceType : Rule := ⟨"aws_instance_previous_type", true, 0⟩

/-- A default rule that is disabled by itself. -/
def ruleDocumentedOutputs : Rule := ⟨"terraform_documented_outputs", false, 1⟩

/-- A deep-check rule that is enabled by itself. -/
def ruleInvalidAMI : Rule := ⟨"aws_instance_invalid_ami", true, 2⟩

/-- A plugin rule with a name of its own. -/
def ruleCustom : Rule := ⟨"my_custom_rule", true, 3⟩

/-- A plugin rule that takes the name of a default rule. -/
def ruleShadow : Rule := ⟨"aws_instance_previous_type", true, 4⟩

/-- An environment with two default rules, one deep-check rule and a plugin
loader that answers by plugin directory: `custom` holds one rule, `shadow`
holds a rule named like a default rule, `broken` fails, any other directory
holds no plugin. -/
def sampleEnv : Env where
  manualDefaultRules := [ruleInstanceType]
  modelRules := [ruleDocumentedOutputs]
  manualDeepCheckRules := [ruleInvalidAMI]
  apiRules := []
  pluginNewRules := fun c =>
    if c.PluginDir = "custom" then ([ruleCustom], none)
    else if c.PluginDir = "shadow" then ([ruleShadow], none)
    else if c.PluginDir = "broken" then ([], some ⟨"plugin: not implemented"⟩)
    else ([], none)

/-- A configuration that turns the disabled default rule on and keeps deep
check off. -/
def cfgEnableOutputs : Config :=
  ⟨false, [("terraform_documented_outputs", some ⟨"terraform_documented_outputs", true⟩)], ""⟩

/-- A configuration whose plugin directory holds a rule named like a default
rule. -/
def cfgShadow : Config := ⟨false, [], "shadow"⟩

/-- A configuration with deep check off that names the deep-check rule in an
enabling override. -/
def cfgEnableAMI : Config :=
  ⟨false, [("aws_instance_invalid_ami", some ⟨"aws_instance_invalid_ami", true⟩)], "custom"⟩

/-- A configuration whose plugin loader fails. -/
def cfgBroken : Config := ⟨true, [], "broken"⟩

/-- The configuration without deep check, overrides and plugins. -/
def cfgDefault : Config := ⟨false, [], ""⟩

/-- A configuration with a plugin rule that has a name of its own. -/
def cfgCustom : Config := ⟨false, [], "custom"⟩

/-- The configuration `cfgCustom` with deep check on. -/
def cfgCustomDeep : Config := ⟨true, [], "custom"⟩

/-- A generated default rule that takes the name of a hand-written one. -/
def ruleInstanceTypeModel : Rule := ⟨"aws_instance_previous_type", true, 5⟩

/-- An environment whose built-in catalogs hold two distinct rules with one
name; its plugin loader finds no plugin. -/
def dupBuiltinEnv : Env where
  manualDefaultRules := [ruleInstanceType, ruleDocumentedOutputs]
  modelRules := [ruleInstanceTypeModel]
  manualDeepCheckRules := [ruleInvalidAMI]
  apiRules := []
  pluginNewRules := fun _ => ([], none)

/-- Deep check on, no overrides, no plugins. -/
def cfgDeep : Config := ⟨true, [], ""⟩

/-- Deep check on, the enabled default rule switched off by an override, one
plugin rule. -/
def cfgDeepDisableType : Config :=
  ⟨true, [("aws_instance_previous_type", some ⟨"aws_instance_previous_type", false⟩)], "custom"⟩

/-- The configuration `cfgDefault` with one more override, for a name that no
rule has. -/
def cfgUnknownOverride : Config :=
  { cfgDefault with
    Rules := GoMap.set cfgDefault.Rules "nonexistent_rule" (some ⟨"nonexistent_rule", true⟩) }

/-! ## Lemmas on the loops of `NewRules` -/

theorem foldl_append_singleton (ps init : List Rule) :
    ps.foldl (fun all pluginRule => all ++ [pluginRule]) init = init ++ ps := by
  induction ps generalizing init with
  | nil => simp
  | cons p ps ih => simp [ih]

theorem enableStep_eq (c : Config) (ret : List Rule) (rule : Rule) :
    enableStep c ret rule = if effectiveEnabled c rule then ret ++ [rule] else ret := by
  unfold enableStep effectiveEnabled
  rfl

theorem foldl_enableStep (c : Config) (l ret : List Rule) :
    l.foldl (enableStep c) ret = ret ++ l.filter (effectiveEnabled c) := by
  induction l generalizing ret with
  | nil => simp
  | cons r l ih =>
    rw [List.foldl_cons, ih, enableStep_eq]
    by_cases h : effectiveEnabled c r = true
    · simp [h]
    · simp [h]

theorem NewRules_of_failure (env : Env) (c : Config) (ps : List Rule) (e : PluginError)
    (h : env.pluginNewRules c = (ps, some e)) :
    NewRules env c = ([], some (GoError.fromPlugin e)) := by
  unfold NewRules
  rw [h]

theorem NewRules_of_success (env : Env) (c : Config) (h : loaderSucceeds env c) :
    NewRules env c = ((candidates env c).filter (effectiveEnabled c), none) := by
  unfold loaderSucceeds at h
  unfold NewRules candidates pluginRulesOf
  rcases hp : env.pluginNewRules c with ⟨ps, err⟩
  rw [hp] at h
  simp only at h
  subst h
  simp only [foldl_append_singleton, foldl_enableStep, List.nil_append]
  cases c.DeepCheck <;> simp

theorem effectiveEnabled_of_override (c : Config) (r : Rule) (o : RuleConfig)
    (h : c.Rules.get? r.Name = some (some o)) : effectiveEnabled c r = o.Enabled := by
  unfold effectiveEnabled
  rw [h]

theorem effectiveEnabled_of_absent (c : Config) (r : Rule)
    (h : c.Rules.get? r.Name = none) : effectiveEnabled c r = r.Enabled := by
  unfold effectiveEnabled
  rw [h]

theorem effectiveEnabled_of_nil (c : Config) (r : Rule)
    (h : c.Rules.get? r.Name = some none) : effectiveEnabled c r = r.Enabled := by
  unfold effectiveEnabled
  rw [h]

/-! ## Lemmas on the map and the loops of `CheckRuleNames` -/

theorem GoMap.get?_filter_ne {α : Type} (m : GoMap α) (k k' : String) :
    GoMap.get? (m.filter (fun e => decide (e.1 ≠ k))) k' =
      if k' = k then none else GoMap.get? m k' := by
  induction m with
  | nil => simp [GoMap.get?]
  | cons e m ih =>
    obtain ⟨a, v⟩ := e
    rw [List.filter_cons]
    by_cases ha : a = k
    · have hd : decide ((a, v).1 ≠ k) = false := by simp [ha]
      rw [hd, if_neg Bool.false_ne_true, ih]
      by_cases hk : k' = k
      · simp [hk]
      · have hk2 : ¬ a = k' := fun h => hk (h ▸ ha)
        simp [GoMap.get?, hk, hk2]
    · have hd : decide ((a, v).1 ≠ k) = true := by simp [ha]
      rw [hd]
      simp only [if_true, GoMap.get?]
      rw [ih]
      by_cases hk : k' = k
      · have hk2 : ¬ a = k' := fun h => ha (h.trans hk)
        simp [hk, hk2, ha]
      · simp [hk]

theorem GoMap.get?_set {α : Type} (m : GoMap α) (k k' : String) (v : α) :
    GoMap.get? (m.set k v) k' = if k = k' then some v else GoMap.get? m k' := by
  unfold GoMap.set
  rw [GoMap.get?, GoMap.get?_filter_ne]
  by_cases h : k = k'
  · simp [h]
  · have h2 : ¬ k' = k := fun e => h e.symm
    simp [h, h2]

theorem GoMap.isSome_get?_set {α : Type} (m : GoMap α) (k k' : String) (v : α) :
    (GoMap.get? (m.set k v) k').isSome = true ↔
      (k' = k ∨ (GoMap.get? m k').isSome = true) := by
  rw [GoMap.get?_set]
  by_cases h : k = k'
  · simp [h]
  · have h2 : ¬ k' = k := fun e => h e.symm
    simp [h, h2]

theorem isSome_get?_foldl_set (l : List Rule) (m : GoMap Rule) (k : String) :
    (GoMap.get? (l.foldl (fun rulesMap rule => rulesMap.set rule.Name rule) m) k).isSome = true ↔
      ((GoMap.get? m k).isSome = true ∨ k ∈ l.map (fun r => r.Name)) := by
  induction l generalizing m with
  | nil => simp
  | cons r l ih =>
    rw [List.foldl_cons, ih, GoMap.isSome_get?_set]
    simp only [List.map_cons, List.mem_cons]
    tauto

theorem isSome_get?_builtinRulesMap (env : Env) (k : String) :
    (GoMap.get? (builtinRulesMap env) k).isSome = true ↔ k ∈ builtinNames env := by
  unfold builtinRulesMap builtinNames
  rw [isSome_get?_foldl_set]
  simp [GoMap.get?]

theorem registerPluginRules_ok (ps : List Rule) (m : GoMap Rule)
    (hnd : (ps.map (fun r => r.Name)).Nodup)
    (hfresh : ∀ p ∈ ps, ¬ (GoMap.get? m p.Name).isSome = true) :
    ∃ m2, registerPluginRules m ps = .ok m2 ∧
      ∀ k, (GoMap.get? m2 k).isSome = true ↔
        ((GoMap.get? m k).isSome = true ∨ k ∈ ps.map (fun r => r.Name)) := by
  induction ps generalizing m with
  | nil => exact ⟨m, rfl, by simp⟩
  | cons p ps ih =>
    have hp : ¬ (GoMap.get? m p.Name).isSome = true := hfresh p (List.mem_cons_self _ _)
    rw [List.map_cons, List.nodup_cons] at hnd
    have hfresh2 : ∀ q ∈ ps, ¬ (GoMap.get? (m.set p.Name p) q.Name).isSome = true := by
      intro q hq hsome
      rw [GoMap.isSome_get?_set] at hsome
      rcases hsome with heq | hold
      · exact hnd.1 (heq ▸ List.mem_map_of_mem (fun r => r.Name) hq)
      · exact hfresh q (List.mem_cons_of_mem _ hq) hold
    obtain ⟨m2, hm2, hkeys⟩ := ih (m.set p.Name p) hnd.2 hfresh2
    refine ⟨m2, ?_, ?_⟩
    · rw [registerPluginRules, if_neg hp]
      exact hm2
    · intro k
      rw [hkeys, GoMap.isSome_get?_set]
      simp only [List.map_cons, List.mem_cons]
      tauto

theorem registerPluginRules_dup (pre : List Rule) (m : GoMap Rule) (p : Rule) (post : List Rule)
    (hnd : (pre.map (fun r => r.Name)).Nodup)
    (hfresh : ∀ q ∈ pre, ¬ (GoMap.get? m q.Name).isSome = true)
    (hp : (GoMap.get? m p.Name).isSome = true ∨ p.Name ∈ pre.map (fun r => r.Name)) :
    registerPluginRules m (pre ++ p :: post) = .error (GoError.duplicated p.Name) := by
  induction pre generalizing m with
  | nil =>
    have hp2 : (GoMap.get? m p.Name).isSome = true := by simpa using hp
    rw [List.nil_append, registerPluginRules, if_pos hp2]
  | cons q pre ih =>
    have hq : ¬ (GoMap.get? m q.Name).isSome = true := hfresh q (List.mem_cons_self _ _)
    rw [List.map_cons, List.nodup_cons] at hnd
    rw [List.cons_append, registerPluginRules, if_neg hq]
    apply ih (m.set q.Name q) hnd.2
    · intro x hx hsome
      rw [GoMap.isSome_get?_set] at hsome
      rcases hsome with heq | hold
      · exact hnd.1 (heq ▸ List.mem_map_of_mem (fun r => r.Name) hx)
      · exact hfresh x (List.mem_cons_of_mem _ hx) hold
    · rw [GoMap.isSome_get?_set]
      simp only [List.map_cons, List.mem_cons] at hp
      tauto

theorem checkNamesLoop_eq_none_iff (m : GoMap Rule) (names : List String) :
    checkNamesLoop m names = none ↔ ∀ n ∈ names, (GoMap.get? m n).isSome = true := by
  induction names with
  | nil => simp [checkNamesLoop]
  | cons n names ih =>
    by_cases h : (GoMap.get? m n).isSome = true
    · rw [checkNamesLoop, if_pos h, ih]
      simp [h]
    · rw [checkNamesLoop, if_neg h]
      simp [h]

theorem checkNamesLoop_first (m : GoMap Rule) (pre : List String) (n : String)
    (post : List String) (hpre : ∀ x ∈ pre, (GoMap.get? m x).isSome = true)
    (hn : ¬ (GoMap.get? m n).isSome = true) :
    checkNamesLoop m (pre ++ n :: post) = some (GoError.notFound n) := by
  induction pre with
  | nil => rw [List.nil_append, checkNamesLoop, if_neg hn]
  | cons x pre ih =>
    rw [List.cons_append, checkNamesLoop, if_pos (hpre x (List.mem_cons_self _ _))]
    exact ih (fun y hy => hpre y (List.mem_cons_of_mem _ hy))

theorem checkNamesLoop_some (m : GoMap Rule) (names : List String) (e : GoError)
    (h : checkNamesLoop m names = some e) :
    ∃ n ∈ names, e = GoError.notFound n ∧ ¬ (GoMap.get? m n).isSome = true := by
  induction names with
  | nil => simp [checkNamesLoop] at h
  | cons n names ih =>
    by_cases hn : (GoMap.get? m n).isSome = true
    · rw [checkNamesLoop, if_pos hn] at h
      obtain ⟨x, hx, hex⟩ := ih h
      exact ⟨x, List.mem_cons_of_mem _ hx, hex⟩
    · rw [checkNamesLoop, if_neg hn] at h
      exact ⟨n, List.mem_cons_self _ _, (Option.some.inj h).symm, hn⟩

theorem CheckRuleNames_of_failure (env : Env) (names : List String) (c : Config)
    (ps : List Rule) (e : PluginError) (h : env.pluginNewRules c = (ps, some e)) :
    CheckRuleNames env names c = some (GoError.fromPlugin e) := by
  unfold CheckRuleNames
  rw [h]

theorem CheckRuleNames_of_success (env : Env) (names : List String) (c : Config)
    (h : loaderSucceeds env c) :
    CheckRuleNames env names c =
      match registerPluginRules (builtinRulesMap env) (pluginRulesOf env c) with
      | .error e => some e
      | .ok rulesMap => checkNamesLoop rulesMap names := by
  unfold loaderSucceeds at h
  unfold CheckRuleNames pluginRulesOf
  rcases hp : env.pluginNewRules c with ⟨ps, err⟩
  rw [hp] at h
  simp only at h
  subst h
  rfl

theorem CheckRuleNames_of_noCollision (env : Env) (names : List String) (c : Config)
    (h : loaderSucceeds env c) (hno : noPluginCollision env c) :
    ∃ m, CheckRuleNames env names c = checkNamesLoop m names ∧
      ∀ k, (GoMap.get? m k).isSome = true ↔ k ∈ knownNames env c := by
  obtain ⟨m, hm, hkeys⟩ := registerPluginRules_ok (pluginRulesOf env c) (builtinRulesMap env)
    hno.1 (fun p hp hsome => hno.2 p hp ((isSome_get?_builtinRulesMap env p.Name).1 hsome))
  refine ⟨m, ?_, ?_⟩
  · rw [CheckRuleNames_of_success env names c h, hm]
  · intro k
    rw [hkeys, isSome_get?_builtinRulesMap]
    unfold knownNames
    simp

theorem CheckRuleNames_of_collision (env : Env) (names : List String) (c : Config)
    (h : loaderSucceeds env c) (pre : List Rule) (p : Rule) (post : List Rule)
    (hsplit : pluginRulesOf env c = pre ++ p :: post)
    (hnd : (pre.map (fun r => r.Name)).Nodup)
    (hfresh : ∀ q ∈ pre, q.Name ∉ builtinNames env)
    (hp : p.Name ∈ builtinNames env ∨ p.Name ∈ pre.map (fun r => r.Name)) :
    CheckRuleNames env names c = some (GoError.duplicated p.Name) := by
  rw [CheckRuleNames_of_success env names c h, hsplit,
    registerPluginRules_dup pre (builtinRulesMap env) p post hnd
      (fun q hq hsome => hfresh q hq ((isSome_get?_builtinRulesMap env q.Name).1 hsome))
      (hp.imp (isSome_get?_builtinRulesMap env p.Name).2 id)]

theorem NewRules_fst_subset (env : Env) (c : Config) (r : Rule)
    (hr : r ∈ (NewRules env c).1) : r ∈ candidates env c ∧ effectiveEnabled c r = true := by
  by_cases h : loaderSucceeds env c
  · rw [NewRules_of_success env c h] at hr
    exact List.mem_filter.1 hr
  · unfold loaderSucceeds at h
    rcases hp : env.pluginNewRules c with ⟨ps, err⟩
    rw [hp] at h
    cases err with
    | none => exact absurd rfl h
    | some e =>
      rw [NewRules_of_failure env c ps e hp] at hr
      simp at hr

theorem exists_first_collision (ps : List Rule) (reg : List String)
    (h : ¬ ((ps.map (fun r => r.Name)).Nodup ∧ ∀ p ∈ ps, p.Name ∉ reg)) :
    ∃ pre p post, ps = pre ++ p :: post ∧ (pre.map (fun r => r.Name)).Nodup ∧
      (∀ q ∈ pre, q.Name ∉ reg) ∧ (p.Name ∈ reg ∨ p.Name ∈ pre.map (fun r => r.Name)) := by
  induction ps generalizing reg with
  | nil => simp at h
  | cons p ps ih =>
    by_cases hp : p.Name ∈ reg
    · exact ⟨[], p, ps, rfl, by simp, by simp, Or.inl hp⟩
    · have hrest : ¬ ((ps.map (fun r => r.Name)).Nodup ∧ ∀ q ∈ ps, q.Name ∉ p.Name :: reg) := by
        rintro ⟨hnd, hfresh⟩
        apply h
        refine ⟨?_, ?_⟩
        · rw [List.map_cons, List.nodup_cons]
          refine ⟨?_, hnd⟩
          intro hmem
          obtain ⟨q, hq, hqn⟩ := List.mem_map.1 hmem
          exact hfresh q hq (by simp [hqn])
        · intro q hq
          rcases List.mem_cons.1 hq with rfl | hq
          · exact hp
          · exact fun hqr => hfresh q hq (List.mem_cons_of_mem _ hqr)
      obtain ⟨pre, x, post, hsplit, hnd, hfresh, hx⟩ := ih (p.Name :: reg) hrest
      refine ⟨p :: pre, x, post, by rw [hsplit, List.cons_append], ?_, ?_, ?_⟩
      · rw [List.map_cons, List.nodup_cons]
        refine ⟨?_, hnd⟩
        intro hmem
        obtain ⟨q, hq, hqn⟩ := List.mem_map.1 hmem
        exact hfresh q hq (by simp [hqn])
      · intro q hq
        rcases List.mem_cons.1 hq with rfl | hq
        · exact hp
        · exact fun hqr => hfresh q hq (List.mem_cons_of_mem _ hqr)
      · rcases hx with hx | hx
        · rcases List.mem_cons.1 hx with hx | hx
          · exact Or.inr (by simp [hx])
          · exact Or.inl hx
        · exact Or.inr (by simp only [List.map_cons]; exact List.mem_cons_of_mem _ hx)

theorem checkNamesLoop_some_split (m : GoMap Rule) (names : List String) (e : GoError)
    (h : checkNamesLoop m names = some e) :
    ∃ pre n post, names = pre ++ n :: post ∧ (∀ x ∈ pre, (GoMap.get? m x).isSome = true) ∧
      ¬ (GoMap.get? m n).isSome = true ∧ e = GoError.notFound n := by
  induction names with
  | nil => simp [checkNamesLoop] at h
  | cons n names ih =>
    by_cases hn : (GoMap.get? m n).isSome = true
    · rw [checkNamesLoop, if_pos hn] at h
      obtain ⟨pre, x, post, hsplit, hpre, hx, hex⟩ := ih h
      refine ⟨n :: pre, x, post, by rw [hsplit, List.cons_append], ?_, hx, hex⟩
      intro y hy
      rcases List.mem_cons.1 hy with rfl | hy
      · exact hn
      · exact hpre y hy
    · rw [checkNamesLoop, if_neg hn] at h
      exact ⟨[], n, names, rfl, by simp, hn, (Option.some.inj h).symm⟩

theorem mem_knownNames_iff (env : Env) (c : Config) (n : String) :
    n ∈ knownNames env c ↔
      ∃ r, (r ∈ DefaultRules env ∨ r ∈ deepCheckRules env ∨ r ∈ pluginRulesOf env c) ∧
        r.Name = n := by
  unfold knownNames builtinNames
  simp only [List.mem_append, List.mem_map]
  constructor
  · rintro (⟨r, hr | hr, hn⟩ | ⟨r, hr, hn⟩)
    · exact ⟨r, Or.inl hr, hn⟩
    · exact ⟨r, Or.inr (Or.inl hr), hn⟩
    · exact ⟨r, Or.inr (Or.inr hr), hn⟩
  · rintro ⟨r, hr | hr | hr, hn⟩
    · exact Or.inl ⟨r, Or.inl hr, hn⟩
    · exact Or.inl ⟨r, Or.inr hr, hn⟩
    · exact Or.inr ⟨r, hr, hn⟩

theorem registerPluginRules_error (ps : List Rule) (m : GoMap Rule) (e : GoError)
    (h : registerPluginRules m ps = .error e) :
    ∃ p ∈ ps, e = GoError.duplicated p.Name := by
  induction ps generalizing m with
  | nil => simp [registerPluginRules] at h
  | cons p ps ih =>
    by_cases hp : (GoMap.get? m p.Name).isSome = true
    · rw [registerPluginRules, if_pos hp] at h
      exact ⟨p, List.mem_cons_self _ _, (Except.error.inj h).symm⟩
    · rw [registerPluginRules, if_neg hp] at h
      obtain ⟨q, hq, he⟩ := ih _ h
      exact ⟨q, List.mem_cons_of_mem _ hq, he⟩

theorem CheckRuleNames_duplicated_names_plugin (env : Env) (names : List String) (c : Config)
    (n : String) (h : CheckRuleNames env names c = some (GoError.duplicated n)) :
    n ∈ (pluginRulesOf env c).map (fun r => r.Name) := by
  by_cases hl : loaderSucceeds env c
  · rw [CheckRuleNames_of_success env names c hl] at h
    cases hreg : registerPluginRules (builtinRulesMap env) (pluginRulesOf env c) with
    | error e =>
      rw [hreg] at h
      obtain ⟨p, hp, he⟩ := registerPluginRules_error _ _ e hreg
      have hn : e = GoError.duplicated n := Option.some.inj h
      rw [hn] at he
      rw [GoError.duplicated.inj he]
      exact List.mem_map_of_mem (fun r => r.Name) hp
    | ok m =>
      rw [hreg] at h
      obtain ⟨x, _, hx, _⟩ := checkNamesLoop_some m names _ h
      exact absurd hx (by simp)
  · unfold loaderSucceeds at hl
    rcases hp : env.pluginNewRules c with ⟨ps, err⟩
    rw [hp] at hl
    cases err with
    | none => exact absurd rfl hl
    | some e =>
      rw [CheckRuleNames_of_failure env names c ps e hp] at h
      exact absurd (Option.some.inj h) (by simp)

theorem get?_foldl_set_of_not_mem (l : List Rule) (m : GoMap Rule) (k : String)
    (h : ∀ q ∈ l, q.Name ≠ k) :
    GoMap.get? (l.foldl (fun rulesMap rule => rulesMap.set rule.Name rule) m) k =
      GoMap.get? m k := by
  induction l generalizing m with
  | nil => rfl
  | cons q l ih =>
    rw [List.foldl_cons, ih _ (fun x hx => h x (List.mem_cons_of_mem _ hx)), GoMap.get?_set,
      if_neg (h q (List.mem_cons_self _ _))]

theorem get?_foldl_set_last (pre : List Rule) (r : Rule) (post : List Rule) (m : GoMap Rule)
    (h : ∀ q ∈ post, q.Name ≠ r.Name) :
    GoMap.get? ((pre ++ r :: post).foldl (fun rulesMap rule => rulesMap.set rule.Name rule) m)
      r.Name = some r := by
  rw [List.foldl_append, List.foldl_cons, get?_foldl_set_of_not_mem post _ r.Name h,
    GoMap.get?_set, if_pos rfl]

/-! ## Claims on `NewRules` -/

/-- C1: when the plugin loader succeeds, a candidate rule is in the list
`NewRules` returns exactly when its effective enabled flag is true; the flag is
the override of `c.Rules` for the rule name when a non-nil one is stored and
the rule's own `Enabled()` otherwise. So a rule disabled by itself with an
enabling override is returned, and a rule enabled by itself with a disabling
override is not. -/
theorem NewRules_mem_iff_effectiveEnabled (env : Env) (c : Config)
    (h : loaderSucceeds env c) (r : Rule) (hr : r ∈ candidates env c) :
    (r ∈ (NewRules env c).1 ↔ effectiveEnabled c r = true) ∧
    (∀ o, c.Rules.get? r.Name = some (some o) → effectiveEnabled c r = o.Enabled) ∧
    (c.Rules.get? r.Name = none ∨ c.Rules.get? r.Name = some none →
      effectiveEnabled c r = r.Enabled) ∧
    (∀ o, r.Enabled = false → c.Rules.get? r.Name = some (some o) → o.Enabled = true →
      r ∈ (NewRules env c).1) ∧
    (∀ o, r.Enabled = true → c.Rules.get? r.Name = some (some o) → o.Enabled = false →
      r ∉ (NewRules env c).1) := by
  have hmem : r ∈ (NewRules env c).1 ↔ effectiveEnabled c r = true := by
    rw [NewRules_of_success env c h]
    simp [List.mem_filter, hr]
  refine ⟨hmem, fun o ho => effectiveEnabled_of_override c r o ho, ?_, ?_, ?_⟩
  · rintro (h0 | h0)
    · exact effectiveEnabled_of_absent c r h0
    · exact effectiveEnabled_of_nil c r h0
  · intro o _ ho hen
    rw [hmem, effectiveEnabled_of_override c r o ho, hen]
  · intro o _ ho hen
    rw [hmem, effectiveEnabled_of_override c r o ho, hen]
    simp

/-- Witness of C1: the default rule that is disabled by itself is a candidate
under `cfgEnableOutputs`, and the theorem applies to it. -/
theorem NewRules_mem_iff_effectiveEnabled_witness :
    loaderSucceeds sampleEnv cfgEnableOutputs ∧
    ruleDocumentedOutputs ∈ candidates sampleEnv cfgEnableOutputs ∧
    ruleDocumentedOutputs.Enabled = false ∧
    ruleDocumentedOutputs ∈ (NewRules sampleEnv cfgEnableOutputs).1 :=
  ⟨by decide, by decide, rfl,
    (NewRules_mem_iff_effectiveEnabled sampleEnv cfgEnableOutputs (by decide)
      ruleDocumentedOutputs (by decide)).2.2.2.1 ⟨"terraform_documented_outputs", true⟩
      rfl (by decide) rfl⟩

/-- C2 (counterexample): the plugin directory `shadow` holds a rule with the
name of a default rule, the loader succeeds, and `NewRules` returns both rules
and the nil error, not a duplicated error. -/
theorem NewRules_plugin_duplicate_counterexample :
    loaderSucceeds sampleEnv cfgShadow ∧
    ruleShadow ∈ pluginRulesOf sampleEnv cfgShadow ∧
    ruleInstanceType ∈ DefaultRules sampleEnv ∧
    ruleShadow.Name = ruleInstanceType.Name ∧
    NewRules sampleEnv cfgShadow = ([ruleInstanceType, ruleShadow], none) ∧
    (NewRules sampleEnv cfgShadow).2 ≠ some (GoError.duplicated ruleShadow.Name) := by
  decide

/-- C2 (amended): when the loader succeeds and a plugin rule has the name of a
default rule, `NewRules` returns the nil error and the candidates filtered by
the effective enabled flag, each of the two same-named rules being returned
exactly when its flag is true; the duplicated error, naming a plugin rule, is
what `CheckRuleNames` returns for that configuration, for every list of
names. -/
theorem NewRules_plugin_duplicate_not_detected (env : Env) (c : Config)
    (h : loaderSucceeds env c) (p d : Rule) (hp : p ∈ pluginRulesOf env c)
    (hd : d ∈ DefaultRules env) (hname : p.Name = d.Name) :
    (NewRules env c).2 = none ∧
    (NewRules env c).1 = (candidates env c).filter (effectiveEnabled c) ∧
    (p ∈ (NewRules env c).1 ↔ effectiveEnabled c p = true) ∧
    (d ∈ (NewRules env c).1 ↔ effectiveEnabled c d = true) ∧
    ∃ n, n ∈ (pluginRulesOf env c).map (fun r => r.Name) ∧
      ∀ names, CheckRuleNames env names c = some (GoError.duplicated n) := by
  have hpc : p ∈ candidates env c := by
    unfold candidates
    exact List.mem_append_right _ hp
  have hdc : d ∈ candidates env c := by
    unfold candidates
    exact List.mem_append_left _ (List.mem_append_left _ hd)
  rw [NewRules_of_success env c h]
  refine ⟨rfl, rfl, by simp [List.mem_filter, hpc], by simp [List.mem_filter, hdc], ?_⟩
  have hcol : ¬ ((((pluginRulesOf env c).map (fun r => r.Name)).Nodup) ∧
      ∀ q ∈ pluginRulesOf env c, q.Name ∉ builtinNames env) := by
    rintro ⟨_, hfresh⟩
    apply hfresh p hp
    unfold builtinNames
    rw [hname]
    exact List.mem_map_of_mem (fun r => r.Name) (List.mem_append_left _ hd)
  obtain ⟨pre, x, post, hsplit, hnd, hfresh, hx⟩ :=
    exists_first_collision (pluginRulesOf env c) (builtinNames env) hcol
  refine ⟨x.Name, ?_, fun names =>
    CheckRuleNames_of_collision env names c h pre x post hsplit hnd hfresh hx⟩
  rw [hsplit]
  simp

/-- Witness of C2 (amended): the configuration `cfgShadow`. -/
theorem NewRules_plugin_duplicate_not_detected_witness :
    loaderSucceeds sampleEnv cfgShadow ∧
    (NewRules sampleEnv cfgShadow).2 = none ∧
    ∃ n, n ∈ (pluginRulesOf sampleEnv cfgShadow).map (fun r => r.Name) ∧
      ∀ names, CheckRuleNames sampleEnv names cfgShadow = some (GoError.duplicated n) :=
  have key := NewRules_plugin_duplicate_not_detected sampleEnv cfgShadow (by decide)
    ruleShadow ruleInstanceType (by decide) (by decide) rfl
  ⟨by decide, key.1, key.2.2.2.2⟩

/-- C3: with deep check off, every rule `NewRules` returns is an element of
`DefaultRules` or of the plugin rules; a rule of `deepCheckRules` that is in
neither is not returned, whatever `c.Rules` holds for its name; and the result
does not depend on the deep-check catalogs at all. -/
theorem NewRules_deepCheck_off (env : Env) (c : Config) (hoff : c.DeepCheck = false) :
    (∀ r ∈ (NewRules env c).1, r ∈ DefaultRules env ∨ r ∈ pluginRulesOf env c) ∧
    (∀ r ∈ deepCheckRules env, r ∉ DefaultRules env → r ∉ pluginRulesOf env c →
      r ∉ (NewRules env c).1) ∧
    (∀ env2 : Env, env2.manualDefaultRules = env.manualDefaultRules →
      env2.modelRules = env.modelRules → env2.pluginNewRules = env.pluginNewRules →
      NewRules env2 c = NewRules env c) := by
  have hsub : ∀ r ∈ (NewRules env c).1, r ∈ DefaultRules env ∨ r ∈ pluginRulesOf env c := by
    intro r hr
    have hc := (NewRules_fst_subset env c r hr).1
    unfold candidates at hc
    rw [hoff] at hc
    simpa using hc
  refine ⟨hsub, ?_, ?_⟩
  · intro r _ hnd hnp hr
    rcases hsub r hr with h1 | h1
    · exact hnd h1
    · exact hnp h1
  · intro env2 h1 h2 h3
    unfold NewRules DefaultRules
    rw [hoff, h1, h2, h3]
    rfl

/-- Witness of C3: under `cfgEnableAMI` deep check is off and the deep-check
rule has an enabling override, yet it is not returned. -/
theorem NewRules_deepCheck_off_witness :
    cfgEnableAMI.DeepCheck = false ∧
    GoMap.get? cfgEnableAMI.Rules ruleInvalidAMI.Name =
      some (some ⟨"aws_instance_invalid_ami", true⟩) ∧
    ruleInvalidAMI ∉ (NewRules sampleEnv cfgEnableAMI).1 :=
  ⟨rfl, by decide,
    (NewRules_deepCheck_off sampleEnv cfgEnableAMI rfl).2.1 ruleInvalidAMI
      (by decide) (by decide) (by decide)⟩

/-! ## Claims on `CheckRuleNames` -/

/-- C4: when the plugin loader succeeds and no plugin rule name collides with
a registered name, `CheckRuleNames` returns nil exactly when every requested
name is the name of a rule of `DefaultRules`, `deepCheckRules` or the plugin
rules; otherwise it returns the error `Rule not found: n` for the first
requested name `n`, in list order, that is no such name. -/
theorem CheckRuleNames_validates_names (env : Env) (ruleNames : List String) (c : Config)
    (h : loaderSucceeds env c) (hno : noPluginCollision env c) :
    (CheckRuleNames env ruleNames c = none ↔
      ∀ n ∈ ruleNames, ∃ r,
        (r ∈ DefaultRules env ∨ r ∈ deepCheckRules env ∨ r ∈ pluginRulesOf env c) ∧
          r.Name = n) ∧
    (∀ pre n post, ruleNames = pre ++ n :: post → (∀ x ∈ pre, x ∈ knownNames env c) →
      n ∉ knownNames env c →
      CheckRuleNames env ruleNames c = some (GoError.notFound n) ∧
        (GoError.notFound n).Error = "Rule not found: " ++ n) ∧
    (CheckRuleNames env ruleNames c ≠ none →
      ∃ pre n post, ruleNames = pre ++ n :: post ∧ (∀ x ∈ pre, x ∈ knownNames env c) ∧
        n ∉ knownNames env c ∧ CheckRuleNames env ruleNames c = some (GoError.notFound n)) := by
  obtain ⟨m, hm, hkeys⟩ := CheckRuleNames_of_noCollision env ruleNames c h hno
  rw [hm]
  refine ⟨?_, ?_, ?_⟩
  · rw [checkNamesLoop_eq_none_iff]
    constructor
    · intro hall n hn
      exact (mem_knownNames_iff env c n).1 ((hkeys n).1 (hall n hn))
    · intro hall n hn
      exact (hkeys n).2 ((mem_knownNames_iff env c n).2 (hall n hn))
  · intro pre n post hsplit hpre hn
    refine ⟨?_, rfl⟩
    rw [hsplit]
    exact checkNamesLoop_first m pre n post (fun x hx => (hkeys x).2 (hpre x hx))
      (fun hsome => hn ((hkeys n).1 hsome))
  · intro hne
    cases hres : checkNamesLoop m ruleNames with
    | none => exact absurd hres hne
    | some e =>
      obtain ⟨pre, n, post, hsplit, hpre, hn, he⟩ := checkNamesLoop_some_split m ruleNames e hres
      exact ⟨pre, n, post, hsplit, fun x hx => (hkeys x).1 (hpre x hx),
        fun hk => hn ((hkeys n).2 hk), by rw [he]⟩

/-- Witness of C4: the name `nonexistent_rule` after a known name. -/
theorem CheckRuleNames_validates_names_witness :
    loaderSucceeds sampleEnv cfgCustom ∧ noPluginCollision sampleEnv cfgCustom ∧
    CheckRuleNames sampleEnv ["my_custom_rule", "nonexistent_rule"] cfgCustom =
      some (GoError.notFound "nonexistent_rule") ∧
    (GoError.notFound "nonexistent_rule").Error = "Rule not found: nonexistent_rule" :=
  have key := (CheckRuleNames_validates_names sampleEnv ["my_custom_rule", "nonexistent_rule"]
    cfgCustom (by decide) (by decide)).2.1 ["my_custom_rule"] "nonexistent_rule" [] rfl
    (by decide) (by decide)
  ⟨by decide, by decide, key.1, by decide⟩

/-- C5: the result of `CheckRuleNames` depends on the configuration only
through the outcome of the plugin loader, so two configurations with the same
loader outcome (such as two that differ in the deep-check flag only) get the
same result for every list of names; with deep check off, a successful load and
no plugin collision, the name of any rule of `deepCheckRules` is accepted,
although `NewRules` under that configuration does not return that rule unless
it is also listed in `DefaultRules`. -/
theorem CheckRuleNames_mode_independent (env : Env) :
    (∀ (ruleNames : List String) (c1 c2 : Config),
      env.pluginNewRules c1 = env.pluginNewRules c2 →
      CheckRuleNames env ruleNames c1 = CheckRuleNames env ruleNames c2) ∧
    (∀ (c : Config) (r : Rule), c.DeepCheck = false → loaderSucceeds env c →
      noPluginCollision env c → r ∈ deepCheckRules env →
      CheckRuleNames env [r.Name] c = none ∧
        (r ∉ DefaultRules env → r ∉ (NewRules env c).1)) := by
  refine ⟨?_, ?_⟩
  · intro ruleNames c1 c2 hsame
    unfold CheckRuleNames
    rw [hsame]
  · intro c r hoff h hno hr
    have hbuiltin : r.Name ∈ builtinNames env := by
      unfold builtinNames
      exact List.mem_map_of_mem (fun r => r.Name) (List.mem_append_right _ hr)
    refine ⟨?_, ?_⟩
    · obtain ⟨m, hm, hkeys⟩ := CheckRuleNames_of_noCollision env [r.Name] c h hno
      rw [hm, checkNamesLoop_eq_none_iff]
      intro n hn
      rw [List.mem_singleton.1 hn, hkeys]
      unfold knownNames
      exact List.mem_append_left _ hbuiltin
    · intro hnd hmem
      have hc := (NewRules_fst_subset env c r hmem).1
      unfold candidates at hc
      rw [hoff] at hc
      simp only [Bool.false_eq_true, if_false, List.append_nil, List.mem_append] at hc
      rcases hc with hc | hc
      · exact hnd hc
      · exact hno.2 r hc hbuiltin

/-- Witness of C5: `cfgCustom` and `cfgCustomDeep` differ in the deep-check
flag only and have the same loader outcome; under `cfgCustom` the name of the
deep-check rule is accepted and the rule is not returned. -/
theorem CheckRuleNames_mode_independent_witness :
    cfgCustom.DeepCheck = false ∧ cfgCustomDeep = { cfgCustom with DeepCheck := true } ∧
    CheckRuleNames sampleEnv ["aws_instance_invalid_ami", "x"] cfgCustom =
      CheckRuleNames sampleEnv ["aws_instance_invalid_ami", "x"] cfgCustomDeep ∧
    CheckRuleNames sampleEnv [ruleInvalidAMI.Name] cfgCustom = none ∧
    ruleInvalidAMI ∉ (NewRules sampleEnv cfgCustom).1 :=
  have key := CheckRuleNames_mode_independent sampleEnv
  have key2 := key.2 cfgCustom ruleInvalidAMI rfl (by decide) (by decide) (by decide)
  ⟨rfl, rfl, key.1 ["aws_instance_invalid_ami", "x"] cfgCustom cfgCustomDeep (by decide),
    key2.1, key2.2 (by decide)⟩

/-- C6: when the plugin loader returns an error, `NewRules` returns that error
together with the empty list, whatever the deep-check flag and the overrides
are, and `CheckRuleNames` returns that error for every list of names. -/
theorem plugin_load_failure_is_fatal (env : Env) (c : Config) (ps : List Rule)
    (e : PluginError) (h : env.pluginNewRules c = (ps, some e)) :
    NewRules env c = ([], some (GoError.fromPlugin e)) ∧
    (GoError.fromPlugin e).Error = e.msg ∧
    ∀ ruleNames, CheckRuleNames env ruleNames c = some (GoError.fromPlugin e) :=
  ⟨NewRules_of_failure env c ps e h, rfl,
    fun ruleNames => CheckRuleNames_of_failure env ruleNames c ps e h⟩

/-- Witness of C6: the plugin directory `broken`. -/
theorem plugin_load_failure_is_fatal_witness :
    sampleEnv.pluginNewRules cfgBroken = ([], some ⟨"plugin: not implemented"⟩) ∧
    NewRules sampleEnv cfgBroken =
      ([], some (GoError.fromPlugin ⟨"plugin: not implemented"⟩)) ∧
    CheckRuleNames sampleEnv ["nonexistent_rule"] cfgBroken =
      some (GoError.fromPlugin ⟨"plugin: not implemented"⟩) :=
  have key := plugin_load_failure_is_fatal sampleEnv cfgBroken []
    ⟨"plugin: not implemented"⟩ (by decide)
  ⟨by decide, key.1, key.2.2 ["nonexistent_rule"]⟩

/-- C7: when the plugin loader succeeds, the first plugin rule in load order
whose name is the name of a built-in rule or of an earlier plugin rule makes
`CheckRuleNames` return, for every list of names, the error
`Rule n is duplicated. Rule names must be unique` with `n` the name of that
rule; some such rule exists as soon as any plugin name collides; and when no
plugin name collides no duplicated error is returned. -/
theorem CheckRuleNames_detects_plugin_collision (env : Env) (c : Config)
    (h : loaderSucceeds env c) :
    (∀ pre p post, pluginRulesOf env c = pre ++ p :: post →
      (pre.map (fun r => r.Name)).Nodup → (∀ q ∈ pre, q.Name ∉ builtinNames env) →
      (p.Name ∈ builtinNames env ∨ p.Name ∈ pre.map (fun r => r.Name)) →
      ∀ ruleNames, CheckRuleNames env ruleNames c = some (GoError.duplicated p.Name) ∧
        (GoError.duplicated p.Name).Error =
          "Rule " ++ p.Name ++ " is duplicated. Rule names must be unique") ∧
    (¬ noPluginCollision env c →
      ∃ p ∈ pluginRulesOf env c,
        ∀ ruleNames, CheckRuleNames env ruleNames c = some (GoError.duplicated p.Name)) ∧
    (noPluginCollision env c →
      ∀ ruleNames n, CheckRuleNames env ruleNames c ≠ some (GoError.duplicated n)) := by
  refine ⟨?_, ?_, ?_⟩
  · intro pre p post hsplit hnd hfresh hp ruleNames
    exact ⟨CheckRuleNames_of_collision env ruleNames c h pre p post hsplit hnd hfresh hp, rfl⟩
  · intro hcol
    obtain ⟨pre, p, post, hsplit, hnd, hfresh, hp⟩ :=
      exists_first_collision (pluginRulesOf env c) (builtinNames env) hcol
    refine ⟨p, by rw [hsplit]; simp, fun ruleNames =>
      CheckRuleNames_of_collision env ruleNames c h pre p post hsplit hnd hfresh hp⟩
  · intro hno ruleNames n hres
    obtain ⟨m, hm, _⟩ := CheckRuleNames_of_noCollision env ruleNames c h hno
    rw [hm] at hres
    obtain ⟨x, _, hx, _⟩ := checkNamesLoop_some m ruleNames _ hres
    exact absurd hx (by simp)

/-- Witness of C7: the plugin rule of `cfgShadow` has the name of a default
rule and is reported, also for a list with an unknown name; the plugin rule of
`cfgCustom` collides with nothing. -/
theorem CheckRuleNames_detects_plugin_collision_witness :
    loaderSucceeds sampleEnv cfgShadow ∧
    CheckRuleNames sampleEnv ["nonexistent_rule"] cfgShadow =
      some (GoError.duplicated "aws_instance_previous_type") ∧
    (GoError.duplicated "aws_instance_previous_type").Error =
      "Rule aws_instance_previous_type is duplicated. Rule names must be unique" ∧
    noPluginCollision sampleEnv cfgCustom ∧
    CheckRuleNames sampleEnv ["nonexistent_rule"] cfgCustom ≠
      some (GoError.duplicated "nonexistent_rule") :=
  have key := (CheckRuleNames_detects_plugin_collision sampleEnv cfgShadow (by decide)).1
    [] ruleShadow [] rfl (by decide) (by decide) (by decide) ["nonexistent_rule"]
  ⟨by decide, key.1, by decide, by decide,
    (CheckRuleNames_detects_plugin_collision sampleEnv cfgCustom (by decide)).2.2 (by decide)
      ["nonexistent_rule"] "nonexistent_rule"⟩

/-- C8 (counterexample): in `dupBuiltinEnv` two distinct default rules share a
name and the plugin load succeeds; `CheckRuleNames` returns nil, its map holds
the later rule under the shared name, and `NewRules` with deep check on returns
both rules and the nil error. -/
theorem builtin_duplicate_counterexample :
    ruleInstanceType ∈ DefaultRules dupBuiltinEnv ++ deepCheckRules dupBuiltinEnv ∧
    ruleInstanceTypeModel ∈ DefaultRules dupBuiltinEnv ++ deepCheckRules dupBuiltinEnv ∧
    ruleInstanceType ≠ ruleInstanceTypeModel ∧
    ruleInstanceType.Name = ruleInstanceTypeModel.Name ∧
    loaderSucceeds dupBuiltinEnv cfgDeep ∧
    CheckRuleNames dupBuiltinEnv [] cfgDeep = none ∧
    CheckRuleNames dupBuiltinEnv ["aws_instance_previous_type"] cfgDeep = none ∧
    GoMap.get? (builtinRulesMap dupBuiltinEnv) "aws_instance_previous_type" =
      some ruleInstanceTypeModel ∧
    cfgDeep.DeepCheck = true ∧
    NewRules dupBuiltinEnv cfgDeep =
      ([ruleInstanceType, ruleInstanceTypeModel, ruleInvalidAMI], none) := by
  decide

/-- C8 (amended): for built-in catalogs in which two distinct rules share a
name and a successful plugin load, no duplicate among the built-in rules is
reported. `NewRules` with deep check on returns the nil error and each of the
two rules exactly when its effective flag is true. A duplicated error of
`CheckRuleNames` always names a plugin rule, and without plugin collision the
result is nil or the not-found error of a requested name. In the map of
`CheckRuleNames` the last built-in rule of a name is the one stored, so at most
one of the two rules is kept under the shared name. -/
theorem builtin_duplicates_not_detected (env : Env) (c : Config)
    (h : loaderSucceeds env c) (a b : Rule)
    (ha : a ∈ DefaultRules env ++ deepCheckRules env)
    (hb : b ∈ DefaultRules env ++ deepCheckRules env)
    (hab : a ≠ b) (hname : a.Name = b.Name) :
    (c.DeepCheck = true →
      (NewRules env c).2 = none ∧
      (a ∈ (NewRules env c).1 ↔ effectiveEnabled c a = true) ∧
      (b ∈ (NewRules env c).1 ↔ effectiveEnabled c b = true)) ∧
    (∀ ruleNames n, CheckRuleNames env ruleNames c = some (GoError.duplicated n) →
      n ∈ (pluginRulesOf env c).map (fun r => r.Name)) ∧
    (noPluginCollision env c → ∀ ruleNames,
      CheckRuleNames env ruleNames c = none ∨
      ∃ n ∈ ruleNames, n ∉ knownNames env c ∧
        CheckRuleNames env ruleNames c = some (GoError.notFound n)) ∧
    (∀ pre r post, DefaultRules env ++ deepCheckRules env = pre ++ r :: post →
      (∀ q ∈ post, q.Name ≠ r.Name) →
      GoMap.get? (builtinRulesMap env) r.Name = some r) ∧
    (GoMap.get? (builtinRulesMap env) a.Name ≠ some a ∨
      GoMap.get? (builtinRulesMap env) b.Name ≠ some b) := by
  refine ⟨?_, ?_, ?_, ?_, ?_⟩
  · intro hdeep
    have hcand : ∀ r ∈ DefaultRules env ++ deepCheckRules env, r ∈ candidates env c := by
      intro r hr
      unfold candidates
      rw [hdeep]
      exact List.mem_append_left _ (by simpa using hr)
    rw [NewRules_of_success env c h]
    exact ⟨rfl, by simp [List.mem_filter, hcand a ha], by simp [List.mem_filter, hcand b hb]⟩
  · intro ruleNames n hres
    exact CheckRuleNames_duplicated_names_plugin env ruleNames c n hres
  · intro hno ruleNames
    obtain ⟨m, hm, hkeys⟩ := CheckRuleNames_of_noCollision env ruleNames c h hno
    rw [hm]
    cases hres : checkNamesLoop m ruleNames with
    | none => exact Or.inl rfl
    | some e =>
      obtain ⟨n, hn, he, hnk⟩ := checkNamesLoop_some m ruleNames e hres
      exact Or.inr ⟨n, hn, fun hk => hnk ((hkeys n).2 hk), by rw [he]⟩
  · intro pre r post hsplit hpost
    unfold builtinRulesMap
    rw [hsplit]
    exact get?_foldl_set_last pre r post [] hpost
  · by_contra hboth
    rw [not_or, not_not, not_not] at hboth
    rw [hname, hboth.2] at hboth
    exact hab (Option.some.inj hboth.1).symm

/-- Witness of C8 (amended): the two same-named default rules of
`dupBuiltinEnv` under `cfgDeep`. -/
theorem builtin_duplicates_not_detected_witness :
    loaderSucceeds dupBuiltinEnv cfgDeep ∧ ruleInstanceType ≠ ruleInstanceTypeModel ∧
    ruleInstanceType.Name = ruleInstanceTypeModel.Name ∧
    (NewRules dupBuiltinEnv cfgDeep).2 = none ∧
    (ruleInstanceType ∈ (NewRules dupBuiltinEnv cfgDeep).1 ↔
      effectiveEnabled cfgDeep ruleInstanceType = true) :=
  have key := (builtin_duplicates_not_detected dupBuiltinEnv cfgDeep (by decide)
    ruleInstanceType ruleInstanceTypeModel (by decide) (by decide) (by decide) rfl).1 rfl
  ⟨by decide, by decide, rfl, key.1, key.2.1⟩

/-! ## Scenarios of `NewRules` -/

/-- C9: with deep check off, an empty override map and a plugin loader that
succeeds with no rules, `NewRules` returns the nil error and exactly the rules
of `DefaultRules` whose `Enabled()` is true, in catalog order, so the length of
the list is the number of such rules. -/
theorem NewRules_default_scenario (env : Env) (c : Config) (hoff : c.DeepCheck = false)
    (hrules : c.Rules = []) (hload : env.pluginNewRules c = ([], none)) :
    NewRules env c = ((DefaultRules env).filter (fun r => r.Enabled), none) ∧
    (NewRules env c).1.length = (DefaultRules env).countP (fun r => r.Enabled) := by
  have hs : loaderSucceeds env c := by
    unfold loaderSucceeds
    rw [hload]
  have heff : effectiveEnabled c = fun r => r.Enabled := by
    funext r
    unfold effectiveEnabled
    rw [hrules]
    rfl
  have hcand : candidates env c = DefaultRules env := by
    unfold candidates pluginRulesOf
    rw [hoff, hload]
    simp
  have hres : NewRules env c = ((DefaultRules env).filter (fun r => r.Enabled), none) := by
    rw [NewRules_of_success env c hs, heff, hcand]
  refine ⟨hres, ?_⟩
  rw [hres, List.countP_eq_length_filter]

/-- Witness of C9: `cfgDefault` on the sample environment, where one of the two
default rules is enabled. -/
theorem NewRules_default_scenario_witness :
    cfgDefault.DeepCheck = false ∧ cfgDefault.Rules = [] ∧
    sampleEnv.pluginNewRules cfgDefault = ([], none) ∧
    NewRules sampleEnv cfgDefault = ([ruleInstanceType], none) ∧
    (NewRules sampleEnv cfgDefault).1.length = 1 :=
  have key := NewRules_default_scenario sampleEnv cfgDefault rfl rfl (by decide)
  ⟨rfl, rfl, by decide, key.1.trans (by decide), key.2.trans (by decide)⟩

/-- C10: with deep check on, the one override `ruleX ↦ Enabled: false` for the
name of a default rule that is enabled by itself, and a successful plugin load,
`NewRules` returns the nil error, no rule named `ruleX` (so not that default
rule, a candidate enabled by itself), and every rule of `DefaultRules`,
`deepCheckRules` and the plugin rules that has another name and whose
`Enabled()` is true. -/
theorem NewRules_deepCheck_one_disabled (env : Env) (c : Config) (ruleX : String)
    (o : RuleConfig) (x : Rule) (hdeep : c.DeepCheck = true)
    (hrules : c.Rules = [(ruleX, some o)]) (ho : o.Enabled = false)
    (h : loaderSucceeds env c) (hx : x ∈ DefaultRules env) (hxn : x.Name = ruleX)
    (hxe : x.Enabled = true) :
    (NewRules env c).2 = none ∧
    (x ∈ candidates env c ∧ x.Enabled = true ∧ x ∉ (NewRules env c).1) ∧
    (∀ r ∈ (NewRules env c).1, r.Name ≠ ruleX) ∧
    (∀ r, (r ∈ DefaultRules env ∨ r ∈ deepCheckRules env ∨ r ∈ pluginRulesOf env c) →
      r.Name ≠ ruleX → r.Enabled = true → r ∈ (NewRules env c).1) := by
  have heff : ∀ r : Rule, effectiveEnabled c r = if r.Name = ruleX then false else r.Enabled := by
    intro r
    unfold effectiveEnabled
    rw [hrules]
    by_cases hr : ruleX = r.Name
    · simp [GoMap.get?, hr, ho]
    · have hr2 : ¬ r.Name = ruleX := fun e => hr e.symm
      simp [GoMap.get?, hr, hr2]
  have hnot : ∀ r ∈ (NewRules env c).1, r.Name ≠ ruleX := by
    intro r hr hn
    have he := (NewRules_fst_subset env c r hr).2
    rw [heff r, if_pos hn] at he
    exact absurd he (by simp)
  refine ⟨?_, ⟨?_, hxe, fun hmem => hnot x hmem hxn⟩, hnot, ?_⟩
  · rw [NewRules_of_success env c h]
  · unfold candidates
    exact List.mem_append_left _ (List.mem_append_left _ hx)
  · intro r hr hn hen
    rw [NewRules_of_success env c h]
    refine List.mem_filter.2 ⟨?_, ?_⟩
    · unfold candidates
      rw [hdeep]
      simp only [if_true, List.mem_append]
      tauto
    · rw [heff r, if_neg hn, hen]

/-- Witness of C10: `cfgDeepDisableType` switches the enabled default rule off;
the deep-check rule and the plugin rule are returned. -/
theorem NewRules_deepCheck_one_disabled_witness :
    cfgDeepDisableType.DeepCheck = true ∧ loaderSucceeds sampleEnv cfgDeepDisableType ∧
    ruleInstanceType ∉ (NewRules sampleEnv cfgDeepDisableType).1 ∧
    ruleInvalidAMI ∈ (NewRules sampleEnv cfgDeepDisableType).1 ∧
    ruleCustom ∈ (NewRules sampleEnv cfgDeepDisableType).1 :=
  have key := NewRules_deepCheck_one_disabled sampleEnv cfgDeepDisableType
    "aws_instance_previous_type" ⟨"aws_instance_previous_type", false⟩ ruleInstanceType
    rfl rfl rfl (by decide) (by decide) rfl rfl
  ⟨rfl, by decide, key.2.1.2.2,
    key.2.2.2 ruleInvalidAMI (by decide) (by decide) rfl,
    key.2.2.2 ruleCustom (by decide) (by decide) rfl⟩

/-! ## Uniqueness, order and precedence -/

theorem noPluginCollision_of_nodup (env : Env) (c : Config)
    (hdistinct : (knownNames env c).Nodup) : noPluginCollision env c := by
  unfold knownNames at hdistinct
  rw [List.nodup_append] at hdistinct
  refine ⟨hdistinct.2.1, ?_⟩
  intro p hp hmem
  exact hdistinct.2.2 hmem (List.mem_map_of_mem (fun r => r.Name) hp)

/-- C11: when the plugin loader succeeds and the names of all rules of
`DefaultRules`, `deepCheckRules` and the plugin rules are pairwise distinct,
`NewRules` returns the nil error, and `CheckRuleNames` returns the nil error
for every list of names taken from the names of those rules, the empty list
included. -/
theorem distinct_names_never_fail (env : Env) (c : Config) (h : loaderSucceeds env c)
    (hdistinct : (knownNames env c).Nodup) :
    (NewRules env c).2 = none ∧
    CheckRuleNames env [] c = none ∧
    ∀ ruleNames, (∀ n ∈ ruleNames, ∃ r,
        (r ∈ DefaultRules env ∨ r ∈ deepCheckRules env ∨ r ∈ pluginRulesOf env c) ∧
          r.Name = n) →
      CheckRuleNames env ruleNames c = none := by
  have hno := noPluginCollision_of_nodup env c hdistinct
  have hall : ∀ ruleNames, (∀ n ∈ ruleNames, n ∈ knownNames env c) →
      CheckRuleNames env ruleNames c = none := by
    intro ruleNames hnames
    obtain ⟨m, hm, hkeys⟩ := CheckRuleNames_of_noCollision env ruleNames c h hno
    rw [hm, checkNamesLoop_eq_none_iff]
    exact fun n hn => (hkeys n).2 (hnames n hn)
  refine ⟨?_, hall [] (by simp), ?_⟩
  · rw [NewRules_of_success env c h]
  · intro ruleNames hnames
    exact hall ruleNames (fun n hn => (mem_knownNames_iff env c n).2 (hnames n hn))

/-- Witness of C11: the four rules of `sampleEnv` under `cfgCustomDeep` have
four names. -/
theorem distinct_names_never_fail_witness :
    loaderSucceeds sampleEnv cfgCustomDeep ∧ (knownNames sampleEnv cfgCustomDeep).Nodup ∧
    (NewRules sampleEnv cfgCustomDeep).2 = none ∧
    CheckRuleNames sampleEnv [] cfgCustomDeep = none ∧
    CheckRuleNames sampleEnv ["my_custom_rule", "aws_instance_invalid_ami"] cfgCustomDeep =
      none :=
  have key := distinct_names_never_fail sampleEnv cfgCustomDeep (by decide) (by decide)
  ⟨by decide, by decide, key.1, key.2.1,
    key.2.2 ["my_custom_rule", "aws_instance_invalid_ami"] (by
      intro n hn
      rcases List.mem_cons.1 hn with rfl | hn
      · exact ⟨ruleCustom, by decide, rfl⟩
      · rcases List.mem_cons.1 hn with rfl | hn
        · exact ⟨ruleInvalidAMI, by decide, rfl⟩
        · simp at hn)⟩

/-- C12: when the plugin loader succeeds, the list `NewRules` returns is the
candidate list (`DefaultRules`, then `deepCheckRules` when deep check is on,
then the plugin rules in load order) filtered by the effective enabled flag;
it is a sublist of the candidates, holds no rule more often than the
candidates do, and is at most as long as the candidate list. -/
theorem NewRules_order_and_multiplicity (env : Env) (c : Config)
    (h : loaderSucceeds env c) :
    candidates env c =
      DefaultRules env ++ (if c.DeepCheck then deepCheckRules env else []) ++
        pluginRulesOf env c ∧
    (NewRules env c).1 = (candidates env c).filter (effectiveEnabled c) ∧
    List.Sublist (NewRules env c).1 (candidates env c) ∧
    (∀ r, (NewRules env c).1.count r ≤ (candidates env c).count r) ∧
    (NewRules env c).1.length ≤ (candidates env c).length := by
  have hres : (NewRules env c).1 = (candidates env c).filter (effectiveEnabled c) := by
    rw [NewRules_of_success env c h]
  have hsub : List.Sublist (NewRules env c).1 (candidates env c) := by
    rw [hres]
    exact List.filter_sublist _
  exact ⟨rfl, hres, hsub, fun r => hsub.count_le r, hsub.length_le⟩

/-- Witness of C12: under `cfgDeepDisableType` four rules are candidates and
the two enabled ones that are not switched off are returned, in candidate
order. -/
theorem NewRules_order_and_multiplicity_witness :
    loaderSucceeds sampleEnv cfgDeepDisableType ∧
    candidates sampleEnv cfgDeepDisableType =
      [ruleInstanceType, ruleDocumentedOutputs, ruleInvalidAMI, ruleCustom] ∧
    (NewRules sampleEnv cfgDeepDisableType).1 = [ruleInvalidAMI, ruleCustom] :=
  have key := NewRules_order_and_multiplicity sampleEnv cfgDeepDisableType (by decide)
  ⟨by decide, by decide, key.2.1.trans (by decide)⟩

/-- C13: in `CheckRuleNames` an error of the plugin loader is returned whatever
the loaded rules and the requested names are; when the loader succeeds and a
plugin name is already registered, a duplicated error is returned for every
list of names, also one with a name that matches no rule; and a not-found
error is returned only when the loader succeeded and no plugin name collided,
and then for a requested name that matches no rule. -/
theorem CheckRuleNames_error_precedence (env : Env) (c : Config) :
    (∀ ps e, env.pluginNewRules c = (ps, some e) →
      ∀ ruleNames, CheckRuleNames env ruleNames c = some (GoError.fromPlugin e)) ∧
    (loaderSucceeds env c → ¬ noPluginCollision env c →
      ∀ ruleNames, ∃ p ∈ pluginRulesOf env c,
        CheckRuleNames env ruleNames c = some (GoError.duplicated p.Name)) ∧
    (∀ ruleNames n, CheckRuleNames env ruleNames c = some (GoError.notFound n) →
      loaderSucceeds env c ∧ noPluginCollision env c ∧ n ∈ ruleNames ∧
        n ∉ knownNames env c) := by
  refine ⟨?_, ?_, ?_⟩
  · intro ps e hfail ruleNames
    exact CheckRuleNames_of_failure env ruleNames c ps e hfail
  · intro h hcol ruleNames
    obtain ⟨pre, p, post, hsplit, hnd, hfresh, hp⟩ :=
      exists_first_collision (pluginRulesOf env c) (builtinNames env) hcol
    exact ⟨p, by rw [hsplit]; simp,
      CheckRuleNames_of_collision env ruleNames c h pre p post hsplit hnd hfresh hp⟩
  · intro ruleNames n hres
    have hl : loaderSucceeds env c := by
      by_contra hl
      unfold loaderSucceeds at hl
      rcases hp : env.pluginNewRules c with ⟨ps, err⟩
      rw [hp] at hl
      cases err with
      | none => exact hl rfl
      | some e =>
        rw [CheckRuleNames_of_failure env ruleNames c ps e hp] at hres
        exact absurd (Option.some.inj hres) (by simp)
    have hno : noPluginCollision env c := by
      by_contra hcol
      obtain ⟨pre, p, post, hsplit, hnd, hfresh, hp⟩ :=
        exists_first_collision (pluginRulesOf env c) (builtinNames env) hcol
      rw [CheckRuleNames_of_collision env ruleNames c hl pre p post hsplit hnd hfresh hp] at hres
      exact absurd (Option.some.inj hres) (by simp)
    obtain ⟨m, hm, hkeys⟩ := CheckRuleNames_of_noCollision env ruleNames c hl hno
    rw [hm] at hres
    obtain ⟨x, hx, hex, hxk⟩ := checkNamesLoop_some m ruleNames _ hres
    have hxn : n = x := GoError.notFound.inj hex
    subst hxn
    exact ⟨hl, hno, hx, fun hk => hxk ((hkeys n).2 hk)⟩

/-- Witness of C13: with the colliding plugin of `cfgShadow` the unknown name
is not reported, the duplicate is; with the failing loader of `cfgBroken` the
loader error is returned. -/
theorem CheckRuleNames_error_precedence_witness :
    loaderSucceeds sampleEnv cfgShadow ∧ ¬ noPluginCollision sampleEnv cfgShadow ∧
    "nonexistent_rule" ∉ knownNames sampleEnv cfgShadow ∧
    (∃ p ∈ pluginRulesOf sampleEnv cfgShadow,
      CheckRuleNames sampleEnv ["nonexistent_rule"] cfgShadow =
        some (GoError.duplicated p.Name)) ∧
    CheckRuleNames sampleEnv ["nonexistent_rule"] cfgBroken =
      some (GoError.fromPlugin ⟨"plugin: not implemented"⟩) :=
  ⟨by decide, by decide, by decide,
    (CheckRuleNames_error_precedence sampleEnv cfgShadow).2.1 (by decide) (by decide)
      ["nonexistent_rule"],
    (CheckRuleNames_error_precedence sampleEnv cfgBroken).1 []
      ⟨"plugin: not implemented"⟩ (by decide) ["nonexistent_rule"]⟩

/-! ## Overrides for names without a rule -/

theorem NewRules_congr (env : Env) (c c2 : Config) (hd : c2.DeepCheck = c.DeepCheck)
    (hl : env.pluginNewRules c2 = env.pluginNewRules c)
    (he : ∀ r ∈ candidates env c, effectiveEnabled c2 r = effectiveEnabled c r) :
    NewRules env c2 = NewRules env c := by
  rcases hp : env.pluginNewRules c with ⟨ps, err⟩
  cases err with
  | some e =>
    rw [NewRules_of_failure env c ps e hp, NewRules_of_failure env c2 ps e (hl.trans hp)]
  | none =>
    have hs : loaderSucceeds env c := by
      unfold loaderSucceeds
      rw [hp]
    have hs2 : loaderSucceeds env c2 := by
      unfold loaderSucceeds
      rw [hl, hp]
    have hcand : candidates env c2 = candidates env c := by
      unfold candidates pluginRulesOf
      rw [hd, hl]
    rw [NewRules_of_success env c hs, NewRules_of_success env c2 hs2, hcand,
      List.filter_congr he]

theorem effectiveEnabled_congr (c c2 : Config) (r : Rule)
    (h : GoMap.get? c2.Rules r.Name = GoMap.get? c.Rules r.Name) :
    effectiveEnabled c2 r = effectiveEnabled c r := by
  unfold effectiveEnabled
  rw [h]

/-- C14: an override whose key is not the name of any candidate rule is inert
in `NewRules`: storing such an entry in `c.Rules` or deleting it, the outcome of
the plugin loader staying the same, changes neither the returned list nor the
returned error; and the only error `NewRules` returns is the error of the
plugin loader, so no override is ever rejected. -/
theorem NewRules_unknown_override_inert (env : Env) (c : Config) (k : String)
    (v : Option RuleConfig) (hk : ∀ r ∈ candidates env c, r.Name ≠ k) :
    (env.pluginNewRules { c with Rules := GoMap.set c.Rules k v } = env.pluginNewRules c →
      NewRules env { c with Rules := GoMap.set c.Rules k v } = NewRules env c) ∧
    (env.pluginNewRules { c with Rules := GoMap.erase c.Rules k } = env.pluginNewRules c →
      NewRules env { c with Rules := GoMap.erase c.Rules k } = NewRules env c) ∧
    (∀ e, (NewRules env c).2 = some e →
      ∃ pe, (env.pluginNewRules c).2 = some pe ∧ e = GoError.fromPlugin pe) := by
  refine ⟨?_, ?_, ?_⟩
  · intro hl
    refine NewRules_congr env c _ rfl hl (fun r hr => effectiveEnabled_congr c _ r ?_)
    show GoMap.get? (GoMap.set c.Rules k v) r.Name = GoMap.get? c.Rules r.Name
    rw [GoMap.get?_set, if_neg (fun e => hk r hr e.symm)]
  · intro hl
    refine NewRules_congr env c _ rfl hl (fun r hr => effectiveEnabled_congr c _ r ?_)
    show GoMap.get? (GoMap.erase c.Rules k) r.Name = GoMap.get? c.Rules r.Name
    unfold GoMap.erase
    rw [GoMap.get?_filter_ne, if_neg (hk r hr)]
  · intro e he
    rcases hp : env.pluginNewRules c with ⟨ps, err⟩
    cases err with
    | some pe =>
      rw [NewRules_of_failure env c ps pe hp] at he
      exact ⟨pe, rfl, (Option.some.inj he).symm⟩
    | none =>
      have hs : loaderSucceeds env c := by
        unfold loaderSucceeds
        rw [hp]
      rw [NewRules_of_success env c hs] at he
      exact absurd he (by simp)

/-- Witness of C14: no rule of `sampleEnv` is named `nonexistent_rule`; with an
enabling override for that name added to `cfgDefault` the result of `NewRules`
is the one of `cfgDefault`. -/
theorem NewRules_unknown_override_inert_witness :
    (∀ r ∈ candidates sampleEnv cfgDefault, r.Name ≠ "nonexistent_rule") ∧
    GoMap.get? cfgUnknownOverride.Rules "nonexistent_rule" =
      some (some ⟨"nonexistent_rule", true⟩) ∧
    NewRules sampleEnv cfgUnknownOverride = NewRules sampleEnv cfgDefault ∧
    NewRules sampleEnv cfgUnknownOverride = ([ruleInstanceType], none) :=
  have key := (NewRules_unknown_override_inert sampleEnv cfgDefault "nonexistent_rule"
    (some ⟨"nonexistent_rule", true⟩) (by decide)).1 (by decide)
  ⟨by decide, by decide, key, by decide⟩

end Rules
